import Mathlib

/-!
Formal model of the TileBoi tiling-noise core (src/utils/noise.ts) and of the
layer rendering / warp pipeline (src/components/PreviewCanvas.tsx).

JavaScript numbers are modelled as real numbers; the 32-bit integer coercions
performed by the bitwise operators inside the mulberry32 generator and the
coordinate hash are modelled explicitly (truncation toward zero followed by
reduction modulo 2^32).  Pixel buffers are functions from coordinates to
pixels.  All definitions are translated from the source; the few places where
behaviour lives outside the repository (the canvas compositor) are modelled
from the specification and say so in their doc comment.
-/

open Real

/-! ## JavaScript numeric primitives -/

/-- Truncation toward zero, the rounding JavaScript applies inside `ToInt32`,
`ToUint32` and the `%` operator. -/
noncomputable def jsTrunc (r : ℝ) : ℤ :=
  if 0 ≤ r then ⌊r⌋ else ⌈r⌉

/-- The JavaScript remainder operator `a % b` on finite numbers:
`a - b * trunc (a / b)`. -/
noncomputable def jsMod (a b : ℝ) : ℝ :=
  a - b * (jsTrunc (a / b) : ℝ)

/-- The double-wrap idiom `((n % m) + m) % m` used by the generators to force
a non-negative representative. -/
noncomputable def jsWrap (a m : ℝ) : ℝ :=
  jsMod (jsMod a m + m) m

/-- The `((t % 1) + 1) % 1` wrap used by the mask generator. -/
noncomputable def jsWrap01 (t : ℝ) : ℝ :=
  jsWrap t 1

/-- JavaScript `ToUint32`: truncate toward zero and reduce modulo 2^32 into
`[0, 2^32)`.  The result is kept as the bit pattern (a natural number). -/
noncomputable def jsU32 (r : ℝ) : ℕ :=
  ((jsTrunc r) % 4294967296).toNat

/-- Reinterpret a 32-bit pattern as the signed value JavaScript's `^`, `|`
and `Math.imul` return. -/
def jsI32 (p : ℕ) : ℤ :=
  if p < 2147483648 then (p : ℤ) else (p : ℤ) - 4294967296

/-- JavaScript `Math.atan2`, via the complex argument (range `(-π, π]`,
`atan2 0 0 = 0`). -/
noncomputable def jsAtan2 (y x : ℝ) : ℝ :=
  Complex.arg ⟨x, y⟩

/-! ## mulberry32 (src/utils/noise.ts lines 9-16)

`mulberry32(a)` returns a closure; each call advances the captured state by
`0x6D2B79F5` and mixes the new state with two xorshift/multiply rounds.  All
bitwise steps act on 32-bit patterns; the mixing is modelled pattern-level on
naturals below 2^32. -/

/-- The pure mixing pipeline of one `mulberry32` call, acting on the 32-bit
pattern of the updated state `t = a += 0x6D2B79F5`.  Returns the final
unsigned 32-bit pattern `(t ^ (t >>> 14)) >>> 0`. -/
def mulberryMix (t1 : ℕ) : ℕ :=
  let t2 := ((t1 ^^^ (t1 >>> 15)) * (t1 ||| 1)) % 4294967296
  let t3 := t2 ^^^ ((t2 + ((t2 ^^^ (t2 >>> 7)) * (t2 ||| 61)) % 4294967296) % 4294967296)
  t3 ^^^ (t3 >>> 14)

/-- The `n`-th value (0-indexed) produced by the closure `mulberry32 a0`:
the state after `n + 1` increments is mixed and divided by 2^32. -/
noncomputable def mulberry32 (a0 : ℝ) (n : ℕ) : ℝ :=
  (mulberryMix (jsU32 (a0 + (n + 1) * 1831565813)) : ℝ) / 4294967296

theorem jsU32_lt (r : ℝ) : jsU32 r < 4294967296 := by
  have h := Int.emod_lt_of_pos (jsTrunc r) (show (0:ℤ) < 4294967296 by norm_num)
  have h0 := Int.emod_nonneg (jsTrunc r) (show (4294967296:ℤ) ≠ 0 by norm_num)
  unfold jsU32
  omega

theorem mulberryMix_lt (t1 : ℕ) : mulberryMix t1 < 4294967296 := by
  unfold mulberryMix
  have h2 : ((t1 ^^^ (t1 >>> 15)) * (t1 ||| 1)) % 4294967296 < 4294967296 :=
    Nat.mod_lt _ (by norm_num)
  set t2 := ((t1 ^^^ (t1 >>> 15)) * (t1 ||| 1)) % 4294967296 with ht2
  have h32 : (4294967296 : ℕ) = 2 ^ 32 := by norm_num
  have hinner : (t2 + ((t2 ^^^ (t2 >>> 7)) * (t2 ||| 61)) % 4294967296) % 4294967296
      < 4294967296 := Nat.mod_lt _ (by norm_num)
  have h3 : t2 ^^^ ((t2 + ((t2 ^^^ (t2 >>> 7)) * (t2 ||| 61)) % 4294967296) % 4294967296)
      < 4294967296 := by
    rw [h32] at h2 hinner ⊢
    exact Nat.xor_lt_two_pow h2 hinner
  set t3 := t2 ^^^ ((t2 + ((t2 ^^^ (t2 >>> 7)) * (t2 ||| 61)) % 4294967296) % 4294967296)
    with ht3
  have hshift : t3 >>> 14 < 4294967296 := by
    rw [Nat.shiftRight_eq_div_pow]
    exact lt_of_le_of_lt (Nat.div_le_self _ _) h3
  rw [h32] at h3 hshift ⊢
  exact Nat.xor_lt_two_pow h3 hshift

/-- Every value drawn from `mulberry32` lies in `[0, 1)`; in particular it is
strictly below `1`, which is what masks every dot when `maskThreshold = 1`. -/
theorem mulberry32_nonneg (a0 : ℝ) (n : ℕ) : 0 ≤ mulberry32 a0 n := by
  unfold mulberry32
  positivity

theorem mulberry32_lt_one (a0 : ℝ) (n : ℕ) : mulberry32 a0 n < 1 := by
  unfold mulberry32
  rw [div_lt_one (by norm_num : (0:ℝ) < 4294967296)]
  exact_mod_cast mulberryMix_lt _

/-! ## Arithmetic facts about the JavaScript primitives -/

theorem jsTrunc_intCast (n : ℤ) : jsTrunc (n : ℝ) = n := by
  unfold jsTrunc
  rcases le_or_lt 0 (n:ℝ) with h | h
  · rw [if_pos h, Int.floor_intCast]
  · rw [if_neg (not_le.mpr h), Int.ceil_intCast]

theorem floorIntDivNat (a : ℤ) (b : ℕ) : ⌊(a:ℝ) / (b:ℝ)⌋ = a / (b:ℤ) := by
  rw [show ((a:ℝ) / (b:ℝ)) = ((a / b : ℚ) : ℝ) by push_cast; ring, Rat.floor_cast,
    Rat.floor_intCast_div_natCast]

theorem jsMod_int_nonneg (j : ℤ) (k : ℕ) (hj : 0 ≤ j) (hk : 0 < k) :
    jsMod (j:ℝ) (k:ℝ) = ((j % (k:ℤ) : ℤ) : ℝ) := by
  unfold jsMod jsTrunc
  have hkr : (0:ℝ) < (k:ℝ) := by exact_mod_cast hk
  rw [if_pos (div_nonneg (by exact_mod_cast hj) hkr.le), floorIntDivNat, Int.emod_def]
  push_cast
  ring

theorem jsMod_int_neg (j : ℤ) (k : ℕ) (hj : j < 0) (hk : 0 < k) :
    jsMod (j:ℝ) (k:ℝ) = -(((-j) % (k:ℤ) : ℤ) : ℝ) := by
  unfold jsMod jsTrunc
  have hkr : (0:ℝ) < (k:ℝ) := by exact_mod_cast hk
  have harg : ¬ (0 ≤ (j:ℝ)/(k:ℝ)) := by
    push_neg
    exact div_neg_of_neg_of_pos (by exact_mod_cast hj) hkr
  rw [if_neg harg]
  have hceil : ⌈(j:ℝ)/(k:ℝ)⌉ = -((-j) / (k:ℤ)) := by
    rw [show ((j:ℝ)/(k:ℝ)) = -(((-j:ℤ):ℝ)/(k:ℝ)) by push_cast; ring, Int.ceil_neg,
      floorIntDivNat]
  rw [hceil, Int.emod_def]
  push_cast
  ring

theorem jsWrap_intCast (j : ℤ) (k : ℕ) (hk : 0 < k) :
    jsWrap (j:ℝ) (k:ℝ) = ((j % (k:ℤ) : ℤ) : ℝ) := by
  have hkz : (0:ℤ) < (k:ℤ) := by exact_mod_cast hk
  unfold jsWrap
  rcases le_or_lt 0 j with hj | hj
  · rw [jsMod_int_nonneg j k hj hk]
    have h0 : 0 ≤ j % (k:ℤ) := Int.emod_nonneg j hkz.ne'
    have h1 : j % (k:ℤ) < k := Int.emod_lt_of_pos j hkz
    rw [show ((j % (k:ℤ) : ℤ):ℝ) + (k:ℝ) = ((j % (k:ℤ) + k : ℤ):ℝ) by push_cast; ring,
      jsMod_int_nonneg _ k (by omega) hk]
    congr 1
    rw [show j % (k:ℤ) + (k:ℤ) = j % (k:ℤ) + 1 * k by ring, Int.add_mul_emod_self]
    exact Int.emod_eq_of_lt h0 h1
  · rw [jsMod_int_neg j k hj hk]
    have h0 : 0 ≤ (-j) % (k:ℤ) := Int.emod_nonneg (-j) hkz.ne'
    have h1 : (-j) % (k:ℤ) < k := Int.emod_lt_of_pos (-j) hkz
    have hback : j % (k:ℤ) = ((k:ℤ) - (-j) % (k:ℤ)) % k := by
      conv_lhs => rw [show j = -(-j) by ring]
      rw [Int.neg_emod]
      conv_lhs => rw [Int.sub_emod]
      conv_rhs => rw [Int.sub_emod, Int.emod_emod_of_dvd _ dvd_rfl]
    rcases eq_or_lt_of_le h0 with hz | hpos
    · rw [show (-(((-j) % (k:ℤ) : ℤ) : ℝ) + (k:ℝ)) = ((k - (-j) % (k:ℤ) : ℤ):ℝ) by
        push_cast; ring, jsMod_int_nonneg _ k (by omega) hk, hback]
    · rw [show (-(((-j) % (k:ℤ) : ℤ) : ℝ) + (k:ℝ)) = ((k - (-j) % (k:ℤ) : ℤ):ℝ) by
        push_cast; ring, jsMod_int_nonneg _ k (by omega) hk, hback]

theorem jsWrap_add_nat (j : ℤ) (k : ℕ) (hk : 0 < k) :
    jsWrap ((j + (k:ℤ) : ℤ):ℝ) (k:ℝ) = jsWrap (j:ℝ) (k:ℝ) := by
  rw [jsWrap_intCast _ k hk, jsWrap_intCast j k hk]
  congr 1
  rw [show j + (k:ℤ) = j + 1 * k by ring, Int.add_mul_emod_self]

theorem jsMod_one_eq (t : ℝ) : jsMod t 1 = t - (jsTrunc t : ℝ) := by
  unfold jsMod
  rw [div_one, one_mul]

theorem jsWrap01_eq_fract (t : ℝ) : jsWrap01 t = Int.fract t := by
  unfold jsWrap01 jsWrap
  rcases le_or_lt 0 t with h | h
  · have h1 : jsMod t 1 = Int.fract t := by
      rw [jsMod_one_eq]
      unfold jsTrunc
      rw [if_pos h, Int.self_sub_floor]
    rw [h1, jsMod_one_eq]
    unfold jsTrunc
    rw [if_pos (by linarith [Int.fract_nonneg t] : (0:ℝ) ≤ Int.fract t + 1)]
    rw [show Int.fract t + 1 = Int.fract t + ((1:ℤ):ℝ) by push_cast; ring,
      Int.floor_add_int, Int.floor_fract]
    push_cast
    ring
  · rcases eq_or_ne (Int.fract t) 0 with hz | hnz
    · have hfloor : t = (⌊t⌋ : ℝ) := by
        have h2 := Int.self_sub_floor t
        rw [hz] at h2
        linarith
      have h1 : jsMod t 1 = 0 := by
        rw [jsMod_one_eq]
        unfold jsTrunc
        rw [if_neg (not_le.mpr h), hfloor, Int.ceil_intCast]
        ring
      rw [h1, jsMod_one_eq]
      unfold jsTrunc
      rw [if_pos (by norm_num : (0:ℝ) ≤ 0 + 1)]
      rw [hz]
      norm_num
    · have hne : t ≠ (⌊t⌋:ℝ) := by
        intro heq
        apply hnz
        rw [heq, Int.fract_intCast]
      have hlt : (⌊t⌋:ℝ) < t := lt_of_le_of_ne (Int.floor_le t) (Ne.symm hne)
      have hceil : ⌈t⌉ = ⌊t⌋ + 1 := by
        have hle : ⌈t⌉ ≤ ⌊t⌋ + 1 := Int.ceil_le_floor_add_one t
        have hgt : (⌊t⌋:ℝ) < (⌈t⌉:ℝ) := lt_of_lt_of_le hlt (Int.le_ceil t)
        have : ⌊t⌋ < ⌈t⌉ := by exact_mod_cast hgt
        omega
      have h1 : jsMod t 1 = Int.fract t - 1 := by
        rw [jsMod_one_eq]
        unfold jsTrunc
        rw [if_neg (not_le.mpr h), hceil, Int.fract]
        push_cast
        ring
      rw [h1, show Int.fract t - 1 + 1 = Int.fract t by ring, jsMod_one_eq]
      unfold jsTrunc
      rw [if_pos (Int.fract_nonneg t), Int.floor_fract]
      push_cast
      ring

theorem jsMod_of_nonneg_lt (a b : ℝ) (hb : 0 < b) (h0 : 0 ≤ a) (h1 : a < b) :
    jsMod a b = a := by
  unfold jsMod jsTrunc
  have hd0 : 0 ≤ a / b := div_nonneg h0 hb.le
  have hd1 : a / b < 1 := (div_lt_one hb).mpr h1
  rw [if_pos hd0, Int.floor_eq_zero_iff.mpr ⟨hd0, hd1⟩]
  push_cast
  ring

theorem jsMod_bounds (a b : ℝ) (hb : 0 < b) : -b < jsMod a b ∧ jsMod a b < b := by
  unfold jsMod jsTrunc
  have ha : a = b * (a / b) := (mul_div_cancel₀ a hb.ne').symm
  rcases le_or_lt 0 (a / b) with h | h
  · rw [if_pos h]
    constructor
    · have := Int.floor_le (a / b)
      nlinarith [Int.floor_nonneg.mpr h]
    · have := Int.lt_floor_add_one (a / b)
      nlinarith
  · rw [if_neg (not_le.mpr h)]
    constructor
    · have := Int.ceil_lt_add_one (a / b)
      nlinarith
    · have := Int.le_ceil (a / b)
      nlinarith [h, hb]

/-- The wrapped source index computed by the warp resampler
(src/components/PreviewCanvas.tsx lines 145-151): take `(x + offset) % w`,
add `w` if negative, and floor. -/
noncomputable def jsWrapIndex (a : ℝ) (n : ℕ) : ℤ :=
  let s := jsMod a (n:ℝ)
  let s2 := if s < 0 then s + (n:ℝ) else s
  ⌊s2⌋

theorem jsWrapIndex_bounds (a : ℝ) (n : ℕ) (hn : 0 < n) :
    0 ≤ jsWrapIndex a n ∧ jsWrapIndex a n < (n:ℤ) := by
  have hnr : (0:ℝ) < (n:ℝ) := by exact_mod_cast hn
  obtain ⟨hlow, hhigh⟩ := jsMod_bounds a (n:ℝ) hnr
  simp only [jsWrapIndex]
  rcases lt_or_le (jsMod a (n:ℝ)) 0 with hneg | hpos
  · rw [if_pos hneg]
    constructor
    · exact Int.floor_nonneg.mpr (by linarith)
    · exact Int.floor_lt.mpr (by push_cast; linarith)
  · rw [if_neg (not_lt.mpr hpos)]
    constructor
    · exact Int.floor_nonneg.mpr hpos
    · exact Int.floor_lt.mpr (by push_cast; linarith)

theorem jsWrapIndex_self (x n : ℕ) (hx : x < n) :
    jsWrapIndex ((x:ℕ) : ℝ) n = (x : ℤ) := by
  have hn : 0 < n := lt_of_le_of_lt (Nat.zero_le x) hx
  have hnr : (0:ℝ) < (n:ℝ) := by exact_mod_cast hn
  have hxr : ((x:ℕ):ℝ) < (n:ℝ) := by exact_mod_cast hx
  simp only [jsWrapIndex]
  rw [jsMod_of_nonneg_lt _ _ hnr (by positivity) hxr]
  rw [if_neg (not_lt.mpr (by positivity : (0:ℝ) ≤ ((x:ℕ):ℝ)))]
  exact Int.floor_natCast x

/-! ## 4D simplex noise (src/utils/noise.ts lines 25-130) -/

/-- Skewing constant `F4 = (sqrt 5 - 1) / 4`. -/
noncomputable def F4 : ℝ := (Real.sqrt 5 - 1) / 4

/-- Unskewing constant `G4 = (5 - sqrt 5) / 20`. -/
noncomputable def G4 : ℝ := (5 - Real.sqrt 5) / 20

/-- The 32 gradient vectors, flattened to 128 integers exactly as in the
source. -/
def grad4 : List ℤ :=
  [0,1,1,1,0,1,1,-1,0,1,-1,1,0,1,-1,-1,
   0,-1,1,1,0,-1,1,-1,0,-1,-1,1,0,-1,-1,-1,
   1,0,1,1,1,0,1,-1,1,0,-1,1,1,0,-1,-1,
   -1,0,1,1,-1,0,1,-1,-1,0,-1,1,-1,0,-1,-1,
   1,1,0,1,1,1,0,-1,1,-1,0,1,1,-1,0,-1,
   -1,1,0,1,-1,1,0,-1,-1,-1,0,1,-1,-1,0,-1,
   1,1,1,0,1,1,-1,0,1,-1,1,0,1,-1,-1,0,
   -1,1,1,0,-1,1,-1,0,-1,-1,1,0,-1,-1,-1,0]

/-- Entry of the flattened gradient table, as a real number. -/
def grad4At (i : ℕ) : ℝ :=
  ((grad4.getD i 0 : ℤ) : ℝ)

/-- Contribution of one lattice corner: `(0.6 - |d|^2)^4 * (g . d)` when the
squared distance is below `0.6`, else `0`.  The gradient is selected by the
chained permutation lookup reduced mod 32 (the code recomputes `% 32` inline
rather than using the `permMod12` array). -/
noncomputable def simplexContrib (perm : ℕ → ℕ) (ix iy iz iw : ℕ)
    (dx dy dz dw : ℝ) : ℝ :=
  let t := 0.6 - dx * dx - dy * dy - dz * dz - dw * dw
  if t < 0 then 0
  else
    let t2 := t * t
    let gi := (perm (ix + perm (iy + perm (iz + perm iw))) % 32) * 4
    t2 * t2 * (grad4At gi * dx + grad4At (gi + 1) * dy + grad4At (gi + 2) * dz +
      grad4At (gi + 3) * dw)

/-- The 4D simplex noise function `simplex4`, parameterized by the module's
permutation table (a total function standing for the 512-entry array). -/
noncomputable def simplex4 (perm : ℕ → ℕ) (x y z w : ℝ) : ℝ :=
  let s := (x + y + z + w) * F4
  let i : ℤ := ⌊x + s⌋
  let j : ℤ := ⌊y + s⌋
  let k : ℤ := ⌊z + s⌋
  let l : ℤ := ⌊w + s⌋
  let t := ((i + j + k + l : ℤ) : ℝ) * G4
  let x0 := x - ((i : ℝ) - t)
  let y0 := y - ((j : ℝ) - t)
  let z0 := z - ((k : ℝ) - t)
  let w0 := w - ((l : ℝ) - t)
  let rankx : ℕ := (if x0 > y0 then 1 else 0) + (if x0 > z0 then 1 else 0) +
    (if x0 > w0 then 1 else 0)
  let ranky : ℕ := (if x0 > y0 then 0 else 1) + (if y0 > z0 then 1 else 0) +
    (if y0 > w0 then 1 else 0)
  let rankz : ℕ := (if x0 > z0 then 0 else 1) + (if y0 > z0 then 0 else 1) +
    (if z0 > w0 then 1 else 0)
  let rankw : ℕ := (if x0 > w0 then 0 else 1) + (if y0 > w0 then 0 else 1) +
    (if z0 > w0 then 0 else 1)
  let i1 : ℕ := if rankx ≥ 3 then 1 else 0
  let j1 : ℕ := if ranky ≥ 3 then 1 else 0
  let k1 : ℕ := if rankz ≥ 3 then 1 else 0
  let l1 : ℕ := if rankw ≥ 3 then 1 else 0
  let i2 : ℕ := if rankx ≥ 2 then 1 else 0
  let j2 : ℕ := if ranky ≥ 2 then 1 else 0
  let k2 : ℕ := if rankz ≥ 2 then 1 else 0
  let l2 : ℕ := if rankw ≥ 2 then 1 else 0
  let i3 : ℕ := if rankx ≥ 1 then 1 else 0
  let j3 : ℕ := if ranky ≥ 1 then 1 else 0
  let k3 : ℕ := if rankz ≥ 1 then 1 else 0
  let l3 : ℕ := if rankw ≥ 1 then 1 else 0
  let x1 := x0 - (i1 : ℝ) + G4
  let y1 := y0 - (j1 : ℝ) + G4
  let z1 := z0 - (k1 : ℝ) + G4
  let w1 := w0 - (l1 : ℝ) + G4
  let x2 := x0 - (i2 : ℝ) + 2 * G4
  let y2 := y0 - (j2 : ℝ) + 2 * G4
  let z2 := z0 - (k2 : ℝ) + 2 * G4
  let w2 := w0 - (l2 : ℝ) + 2 * G4
  let x3 := x0 - (i3 : ℝ) + 3 * G4
  let y3 := y0 - (j3 : ℝ) + 3 * G4
  let z3 := z0 - (k3 : ℝ) + 3 * G4
  let w3 := w0 - (l3 : ℝ) + 3 * G4
  let x4 := x0 - 1 + 4 * G4
  let y4 := y0 - 1 + 4 * G4
  let z4 := z0 - 1 + 4 * G4
  let w4 := w0 - 1 + 4 * G4
  let ii : ℕ := (i % 256).toNat
  let jj : ℕ := (j % 256).toNat
  let kk : ℕ := (k % 256).toNat
  let ll : ℕ := (l % 256).toNat
  let n0 := simplexContrib perm ii jj kk ll x0 y0 z0 w0
  let n1 := simplexContrib perm (ii + i1) (jj + j1) (kk + k1) (ll + l1) x1 y1 z1 w1
  let n2 := simplexContrib perm (ii + i2) (jj + j2) (kk + k2) (ll + l2) x2 y2 z2 w2
  let n3 := simplexContrib perm (ii + i3) (jj + j3) (kk + k3) (ll + l3) x3 y3 z3 w3
  let n4 := simplexContrib perm (ii + 1) (jj + 1) (kk + 1) (ll + 1) x4 y4 z4 w4
  27 * (n0 + n1 + n2 + n3 + n4)

/-- Table entry `p[i] = floor(random() * 256)` where `random` is the
`mulberry32` stream started from the seed: the `i`-th raw pattern shifted down
to its top byte. -/
noncomputable def permBase (seed : ℝ) (i : ℕ) : ℕ :=
  mulberryMix (jsU32 (seed + (i + 1) * 1831565813)) / 16777216

/-- The permutation table built by `initNoise` (src/utils/noise.ts lines
43-52): `perm[i] = p[i & 255]`.  Modelled as a total function on indices. -/
noncomputable def initNoise (seed : ℝ) : ℕ → ℕ :=
  fun i => permBase seed (i % 256)

/-! ## Tiled generators (src/utils/noise.ts lines 135-366) -/

/-- Normalized tiled simplex noise `generateSimplexTiled`: map the pixel onto
two circles of radius `scale / 2π` and renormalize the 4D noise value from
`[-1, 1]` to `[0, 1]`. -/
noncomputable def generateSimplexTiled (perm : ℕ → ℕ) (x y w h scale : ℝ) : ℝ :=
  let nx := x / w
  let ny := y / h
  let PI2 := π * 2
  let dx := scale / (2 * π)
  (simplex4 perm (Real.cos (nx * PI2) * dx) (Real.sin (nx * PI2) * dx)
    (Real.cos (ny * PI2) * dx) (Real.sin (ny * PI2) * dx) + 1) * 0.5

/-- Raw tiled simplex noise `getRawSimplexTiled` (same mapping, no
renormalization). -/
noncomputable def getRawSimplexTiled (perm : ℕ → ℕ) (x y w h scale : ℝ) : ℝ :=
  let nx := x / w
  let ny := y / h
  let PI2 := π * 2
  let dx := scale / (2 * π)
  simplex4 perm (Real.cos (nx * PI2) * dx) (Real.sin (nx * PI2) * dx)
    (Real.cos (ny * PI2) * dx) (Real.sin (ny * PI2) * dx)

/-- Vertical stripe pattern `generateStripesTiled`:
`sin(nx * π * 2 * scale) > 0 ? 1 : 0`. -/
noncomputable def generateStripesTiled (x y w h scale : ℝ) : ℝ :=
  if 0 < Real.sin (x / w * π * 2 * scale) then 1 else 0

/-- The 3x3 neighborhood offsets, in the iteration order of the source's
double loop (`yoff` outer, `xoff` inner). -/
def cellOffsets : List (ℤ × ℤ) :=
  [(-1,-1),(0,-1),(1,-1),(-1,0),(0,0),(1,0),(-1,1),(0,1),(1,1)]

/-- Distance from the sample point to the jittered feature point of one
neighbor cell of the cellular generator (src/utils/noise.ts lines 172-184).
The cell seed depends on the wrapped coordinates; the point sits at the cell
corner `(nx, ny)` plus `r() * jitter` in each axis. -/
noncomputable def cellularDist (px py scale jitter seed : ℝ) (ix iy : ℤ)
    (off : ℤ × ℤ) : ℝ :=
  let nx : ℝ := ((ix + off.1 : ℤ) : ℝ)
  let ny : ℝ := ((iy + off.2 : ℤ) : ℝ)
  let wrappedX := jsWrap nx scale
  let wrappedY := jsWrap ny scale
  let cellSeed := seed + wrappedX * 5743 + wrappedY * 1234
  let pointX := nx + mulberry32 cellSeed 0 * jitter
  let pointY := ny + mulberry32 cellSeed 1 * jitter
  Real.sqrt ((px - pointX) ^ 2 + (py - pointY) ^ 2)

/-- One iteration of the cellular generator's loop body: keep the smaller of
the running minimum and this cell's distance. -/
noncomputable def cellularStep (px py scale jitter seed : ℝ) (ix iy : ℤ)
    (minDist : ℝ) (off : ℤ × ℤ) : ℝ :=
  let d := cellularDist px py scale jitter seed ix iy off
  if d < minDist then d else minDist

/-- Worley/cellular distance field `generateCellularTiled`
(src/utils/noise.ts lines 165-191). -/
noncomputable def generateCellularTiled (x y w h scale jitter seed : ℝ) : ℝ :=
  let px := x / w * scale
  let py := y / h * scale
  let ix : ℤ := ⌊px⌋
  let iy : ℤ := ⌊py⌋
  min 1 (cellOffsets.foldl (cellularStep px py scale jitter seed ix iy) 1)

/-- The signed 32-bit cell seed of the dots generator: the strong coordinate
hash `(wrappedX * 15485863) ^ (wrappedY * 2038074743)` xor-combined with the
layer seed (src/utils/noise.ts lines 231-232). -/
noncomputable def dotsCellSeed (seed wrappedX wrappedY : ℝ) : ℤ :=
  let h1 := (jsU32 (wrappedX * 15485863)) ^^^ (jsU32 (wrappedY * 2038074743))
  jsI32 ((jsU32 seed) ^^^ h1)

/-- One iteration of the dots generator's loop body (src/utils/noise.ts
lines 220-267): decide visibility by the first random draw against the mask
threshold, then jitter the cell-center point, pick a radius, and max-blend a
soft-edged disc. -/
noncomputable def dotsStep (px py gridScale baseSize sizeVar maskThreshold seed jitter : ℝ)
    (ix iy : ℤ) (value : ℝ) (off : ℤ × ℤ) : ℝ :=
  let nx : ℝ := ((ix + off.1 : ℤ) : ℝ)
  let ny : ℝ := ((iy + off.2 : ℤ) : ℝ)
  let wrappedX := jsWrap nx gridScale
  let wrappedY := jsWrap ny gridScale
  let cellSeed : ℝ := ((dotsCellSeed seed wrappedX wrappedY : ℤ) : ℝ)
  let maskVal := mulberry32 cellSeed 0
  if maskVal < maskThreshold then value
  else
    let jx := (mulberry32 cellSeed 1 - 0.5) * jitter
    let jy := (mulberry32 cellSeed 2 - 0.5) * jitter
    let pointX := nx + 0.5 + jx
    let pointY := ny + 0.5 + jy
    let sizeRandom := mulberry32 cellSeed 3
    let radius := baseSize * 0.5 * (1 - sizeRandom * sizeVar)
    let dist := Real.sqrt ((px - pointX) ^ 2 + (py - pointY) ^ 2)
    if dist < radius then
      let edge := 0.05
      let v := 1 - min 1 (max 0 ((dist - radius + edge) / edge))
      max value v
    else value

/-- Irregular dot field `generateDotsTiled` (src/utils/noise.ts lines
194-269).  The grid is `ceil(max(1, scale))` cells wide so the lattice always
aligns with the tile edges. -/
noncomputable def generateDotsTiled
    (x y w h scale baseSize sizeVar maskThreshold seed jitter : ℝ) : ℝ :=
  let gridScale : ℝ := ((⌈max 1 scale⌉ : ℤ) : ℝ)
  let px := x / w * gridScale
  let py := y / h * gridScale
  let ix : ℤ := ⌊px⌋
  let iy : ℤ := ⌊py⌋
  cellOffsets.foldl (dotsStep px py gridScale baseSize sizeVar maskThreshold seed jitter ix iy) 0

/-- The five mask shapes of src/types.ts. -/
inductive MaskType where
  | GLOW_CIRCLE
  | GLOW_SQUARE
  | STAR_4
  | STAR_5
  | RINGS

/-- Mask field evaluated on in-tile coordinates `(u, v)` in `[0,1)^2`
(src/utils/noise.ts lines 321-365): recenter, compute a shape SDF (or the
ring field, which returns early), and clamp `-sdf / smoothing` to `[0,1]`. -/
noncomputable def maskFromUV (u v : ℝ) (ty : MaskType) (hardness ringCount : ℝ) : ℝ :=
  let dx := u - 0.5
  let dy := v - 0.5
  let dist := Real.sqrt (dx * dx + dy * dy)
  let angle := jsAtan2 dy dx
  let size : ℝ := 0.4
  let smoothing := (1 - hardness) * 0.4 + 0.001
  match ty with
  | .RINGS => Real.sin (dist * ringCount * π * 4) * 0.5 + 0.5
  | .GLOW_CIRCLE => max 0 (min 1 (-(dist - size) / smoothing))
  | .GLOW_SQUARE => max 0 (min 1 (-(max |dx| |dy| - size) / smoothing))
  | .STAR_4 => max 0 (min 1 (-(dist - (size * 0.6 + size * 0.4 * Real.cos (angle * 4))) / smoothing))
  | .STAR_5 => max 0 (min 1 (-(dist - (size * 0.6 + size * 0.4 * Real.cos (angle * 5))) / smoothing))

/-- Radial mask field `generateMaskTiled` (src/utils/noise.ts lines 278-366):
center-scale the normalized coordinates, shift by half a tile, wrap into
`[0,1)^2` with the double-modulo idiom, then evaluate the shape. -/
noncomputable def generateMaskTiled (x y w h scale : ℝ) (ty : MaskType)
    (hardness ringCount : ℝ) : ℝ :=
  maskFromUV (jsWrap01 ((x / w - 0.5) * scale + 0.5))
    (jsWrap01 ((y / h - 0.5) * scale + 0.5)) ty hardness ringCount

/-! ## Layer rendering (src/components/PreviewCanvas.tsx) -/

/-- The layer kinds of src/types.ts. -/
inductive NoiseType where
  | SIMPLEX
  | PERLIN
  | CELLULAR
  | DOTS
  | STRIPES
  | MASK
  | GRAIN
  | CUSTOM_AI
  | IMAGE
  | WARP

/-- A layer kind handled by the per-pixel procedural loop (neither warp nor
image-backed). -/
def NoiseType.isProcedural : NoiseType → Bool
  | .WARP => false
  | .IMAGE => false
  | .CUSTOM_AI => false
  | _ => true

/-- The warp displacement field kinds of src/types.ts. -/
inductive WarpType where
  | SWIRL
  | TURBULENCE
  | FLOW

/-- The kind-specific layer parameter record of src/types.ts.  Optional
fields are `Option`-valued; the renderer resolves the defaults. -/
structure LayerParams where
  scale : ℝ
  seed : ℝ
  contrast : ℝ
  brightness : ℝ
  invert : Bool
  jitter : Option ℝ
  sizeVariation : Option ℝ
  dotBaseSize : Option ℝ
  maskThreshold : Option ℝ
  maskType : Option MaskType
  maskHardness : Option ℝ
  ringCount : Option ℝ
  warpType : Option WarpType
  warpStrength : Option ℝ

/-- JavaScript's `x || d` default idiom on numbers: the default is taken when
the field is absent or equal to `0`. -/
noncomputable def jsOrNum (v : Option ℝ) (d : ℝ) : ℝ :=
  match v with
  | none => d
  | some x => if x = 0 then d else x

/-- The generator dispatch of the procedural-layer loop
(src/components/PreviewCanvas.tsx lines 189-223), including the call-site
default values.  `entropy` stands for the `Math.random()` draw a grain layer
makes at this pixel; kinds not handled by the switch leave the initial 0. -/
noncomputable def layerValue (perm : ℕ → ℕ) (entropy : ℝ) (ty : NoiseType)
    (p : LayerParams) (w h : ℕ) (x y : ℕ) : ℝ :=
  match ty with
  | .SIMPLEX => generateSimplexTiled perm x y w h p.scale
  | .PERLIN => generateSimplexTiled perm x y w h p.scale
  | .CELLULAR => generateCellularTiled x y w h p.scale (jsOrNum p.jitter 1) p.seed
  | .DOTS => generateDotsTiled x y w h p.scale (jsOrNum p.dotBaseSize 0.8)
      (jsOrNum p.sizeVariation 0) (jsOrNum p.maskThreshold 0) p.seed
      (p.jitter.getD 1)
  | .STRIPES => generateStripesTiled x y w h p.scale
  | .MASK => generateMaskTiled x y w h p.scale (p.maskType.getD .GLOW_CIRCLE)
      (p.maskHardness.getD 0.5) (jsOrNum p.ringCount 5)
  | .GRAIN => entropy
  | _ => 0

/-- One RGBA pixel; the four channels mirror the four consecutive slots of
the `ImageData` byte array. -/
structure RGBA where
  r : ℝ
  g : ℝ
  b : ℝ
  a : ℝ

/-- The per-pixel body of the procedural-layer loop
(src/components/PreviewCanvas.tsx lines 186-237): generator value, optional
invert, tone map, clamp, quantize to a grayscale triple with
`alpha = floor(opacity * 255)`. -/
noncomputable def renderPixel (perm : ℕ → ℕ) (entropy : ℝ) (ty : NoiseType)
    (p : LayerParams) (opacity : ℝ) (w h x y : ℕ) : RGBA :=
  let value := layerValue perm entropy ty p w h x y
  let value1 := if p.invert then 1 - value else value
  let value2 := (value1 - 0.5) * p.contrast + 0.5 + p.brightness
  let value3 := max 0 (min 1 value2)
  let pixelVal : ℝ := ((⌊value3 * 255⌋ : ℤ) : ℝ)
  ⟨pixelVal, pixelVal, pixelVal, ((⌊opacity * 255⌋ : ℤ) : ℝ)⟩

/-! ## Warp stage (src/components/PreviewCanvas.tsx lines 100-176) -/

/-- The displacement computed for one output pixel by the warp branch
(src/components/PreviewCanvas.tsx lines 117-142).  `strength` is the resolved
`warpStrength`; the code scales it by 100. -/
noncomputable def warpOffset (perm : ℕ → ℕ) (ty : WarpType)
    (seed scale strength : ℝ) (w h : ℕ) (x y : ℕ) : ℝ × ℝ :=
  let str := strength * 100
  match ty with
  | .TURBULENCE =>
      (getRawSimplexTiled perm ((x:ℝ) + 123.4) (y:ℝ) (w:ℝ) (h:ℝ) scale * str,
       getRawSimplexTiled perm (x:ℝ) ((y:ℝ) + 567.8) (w:ℝ) (h:ℝ) scale * str)
  | .SWIRL =>
      let dx := (x:ℝ) / (w:ℝ) - 0.5
      let dy := (y:ℝ) / (h:ℝ) - 0.5
      let dist := Real.sqrt (dx * dx + dy * dy)
      let angle := jsAtan2 dy dx
      let sw := Real.sin (dist * scale * 10 - seed)
      (Real.cos (angle + sw) * str * dist, Real.sin (angle + sw) * str * dist)
  | .FLOW =>
      let n := getRawSimplexTiled perm (x:ℝ) (y:ℝ) (w:ℝ) (h:ℝ) scale
      (Real.cos (n * π) * str, Real.sin (n * π) * str)

/-- The warp resampling loop body (src/components/PreviewCanvas.tsx lines
144-159): wrap the displaced coordinate into the buffer and copy the four
channels of that source pixel verbatim. -/
noncomputable def warpResample (src : ℕ → ℕ → RGBA) (w h : ℕ)
    (off : ℕ → ℕ → ℝ × ℝ) (x y : ℕ) : RGBA :=
  let sx := jsWrapIndex ((x:ℝ) + (off x y).1) w
  let sy := jsWrapIndex ((y:ℝ) + (off x y).2) h
  let p := src sx.toNat sy.toNat
  ⟨p.r, p.g, p.b, p.a⟩

/-- Modelled from the spec: the canvas `drawImage` compositing step that
applies the warp layer's opacity is browser-internal (not in src); section
4.6 of the spec describes it as a linear interpolation between the pre-warp
accumulator and the warped buffer, which is what this definition does,
channel by channel. -/
def blendOpacity (alpha : ℝ) (top bot : RGBA) : RGBA :=
  ⟨alpha * top.r + (1 - alpha) * bot.r,
   alpha * top.g + (1 - alpha) * bot.g,
   alpha * top.b + (1 - alpha) * bot.b,
   alpha * top.a + (1 - alpha) * bot.a⟩

/-- The full warp stage: resample the pre-warp accumulator through the
displacement field, then blend the result back over the accumulator with the
layer's opacity. -/
noncomputable def warpStage (src : ℕ → ℕ → RGBA) (w h : ℕ)
    (off : ℕ → ℕ → ℝ × ℝ) (alpha : ℝ) (x y : ℕ) : RGBA :=
  blendOpacity alpha (warpResample src w h off x y) (src x y)

/-! ## The noise module as a state machine

The permutation table of src/utils/noise.ts is module-global mutable state:
`initNoise` rewrites it and every generator reads it.  `Math.random()` (used
by the grain kind) draws from an ambient entropy stream.  The machine below
makes both explicit so that determinism claims become statements about
`noiseMachine`. -/

/-- The mutable state visible to the noise module: the permutation table and
the position in the ambient `Math.random()` stream. -/
structure NoiseState where
  permTbl : ℕ → ℕ
  entropy : ℕ → ℝ
  entropyIdx : ℕ

/-- One call into the noise module. -/
inductive NoiseCall where
  | init (seed : ℝ)
  | simplexT (x y w h scale : ℝ)
  | rawSimplexT (x y w h scale : ℝ)
  | cellularT (x y w h scale jitter seed : ℝ)
  | dotsT (x y w h scale baseSize sizeVar maskThreshold seed jitter : ℝ)
  | stripesT (x y w h scale : ℝ)
  | maskT (x y w h scale : ℝ) (ty : MaskType) (hardness ringCount : ℝ)
  | grain

/-- Calls that evaluate a seeded generator (everything except `initNoise` and
the deliberately non-deterministic grain draw). -/
def NoiseCall.isEval : NoiseCall → Bool
  | .init _ => false
  | .grain => false
  | _ => true

/-- The pure value of an eval call given a permutation table. -/
noncomputable def evalCall (perm : ℕ → ℕ) : NoiseCall → ℝ
  | .simplexT x y w h scale => generateSimplexTiled perm x y w h scale
  | .rawSimplexT x y w h scale => getRawSimplexTiled perm x y w h scale
  | .cellularT x y w h scale jitter seed => generateCellularTiled x y w h scale jitter seed
  | .dotsT x y w h scale baseSize sizeVar maskThreshold seed jitter =>
      generateDotsTiled x y w h scale baseSize sizeVar maskThreshold seed jitter
  | .stripesT x y w h scale => generateStripesTiled x y w h scale
  | .maskT x y w h scale ty hardness ringCount =>
      generateMaskTiled x y w h scale ty hardness ringCount
  | .init _ => 0
  | .grain => 0

/-- Execute one call: `initNoise` rebuilds the table, `grain` consumes one
entropy value (`Math.random()`), and every other generator reads the table
without touching the state. -/
noncomputable def noiseMachine (st : NoiseState) : NoiseCall → NoiseState × ℝ
  | .init seed => ({ st with permTbl := initNoise seed }, 0)
  | .grain => ({ st with entropyIdx := st.entropyIdx + 1 }, st.entropy st.entropyIdx)
  | c => (st, evalCall st.permTbl c)

/-- A concrete machine state used as the counterexample start state: zero
permutation table and the entropy stream 0, 1, 2, ... -/
noncomputable def demoState : NoiseState :=
  ⟨fun _ => 0, fun n => (n : ℝ), 0⟩

/-! ## Helper lemmas -/

theorem dotsStep_mask_all (px py g bs sv seed j : ℝ) (ix iy : ℤ) (v : ℝ)
    (off : ℤ × ℤ) : dotsStep px py g bs sv 1 seed j ix iy v off = v := by
  simp only [dotsStep]
  rw [if_pos (mulberry32_lt_one _ 0)]

theorem blendOpacity_self (alpha : ℝ) (p : RGBA) : blendOpacity alpha p p = p := by
  cases p with
  | mk r g b a =>
    simp only [blendOpacity, RGBA.mk.injEq]
    refine ⟨by ring, by ring, by ring, by ring⟩

theorem clamp_comm01 (v : ℝ) : max 0 (min 1 v) = min 1 (max 0 v) := by
  rcases le_total v 0 with h | h
  · rw [min_eq_right (le_trans h zero_le_one), max_eq_left h, min_eq_right zero_le_one]
  · rcases le_total v 1 with h2 | h2
    · rw [min_eq_right h2, max_eq_right h, min_eq_right h2]
    · rw [min_eq_left h2, max_eq_right h, min_eq_left h2, max_eq_right zero_le_one]

/-! ## Claim theorems -/

/-- C5.  Dots masking: with `maskThreshold = 1.0` every cell's first random
draw (which is strictly below 1) is below the threshold, so every candidate
point is suppressed and `generateDotsTiled` returns the all-zero field, for
every pixel, resolution, scale, seed, jitter and size parameters. -/
theorem dots_maskThreshold_one_allZero
    (x y w h scale baseSize sizeVar seed jitter : ℝ) :
    generateDotsTiled x y w h scale baseSize sizeVar 1 seed jitter = 0 := by
  simp only [generateDotsTiled, cellOffsets, List.foldl_cons, List.foldl_nil,
    dotsStep_mask_all]

/-- C7.  Warp sampling safety: for every output pixel inside the buffer and
every displacement, the wrapped source indices computed by the warp stage lie
in `[0, w) x [0, h)`, so the resampler never reads out of bounds. -/
theorem warp_sample_inbounds (w h : ℕ) (hw : 0 < w) (hh : 0 < h) (x y : ℕ)
    (hx : x < w) (hy : y < h) (offsetX offsetY : ℝ) :
    0 ≤ jsWrapIndex ((x:ℝ) + offsetX) w ∧ jsWrapIndex ((x:ℝ) + offsetX) w < (w:ℤ) ∧
    0 ≤ jsWrapIndex ((y:ℝ) + offsetY) h ∧ jsWrapIndex ((y:ℝ) + offsetY) h < (h:ℤ) := by
  obtain ⟨h1, h2⟩ := jsWrapIndex_bounds ((x:ℝ) + offsetX) w hw
  obtain ⟨h3, h4⟩ := jsWrapIndex_bounds ((y:ℝ) + offsetY) h hh
  exact ⟨h1, h2, h3, h4⟩

/-- Witness for C7 at the concrete corner `w = h = 2`, pixel `(1, 1)`, with
a large negative and a large positive displacement. -/
theorem warp_sample_inbounds_witness :
    0 ≤ jsWrapIndex (((1:ℕ):ℝ) + (-7.5)) 2 ∧ jsWrapIndex (((1:ℕ):ℝ) + (-7.5)) 2 < ((2:ℕ):ℤ) ∧
    0 ≤ jsWrapIndex (((1:ℕ):ℝ) + 1000.25) 2 ∧ jsWrapIndex (((1:ℕ):ℝ) + 1000.25) 2 < ((2:ℕ):ℤ) :=
  warp_sample_inbounds 2 2 (by decide) (by decide) 1 1 (by decide) (by decide) (-7.5) 1000.25

/-- C6.  Warp identity at zero strength: with `warpStrength = 0` the
displacement is identically zero for all three warp types, the resampled
buffer is exactly the pre-warp accumulator, and the opacity blend leaves the
accumulator unchanged. -/
theorem warp_zero_strength (pm : ℕ → ℕ) (ty : WarpType) (seed scale alpha : ℝ)
    (src : ℕ → ℕ → RGBA) (w h x y : ℕ) (hw : 0 < w) (hh : 0 < h)
    (hx : x < w) (hy : y < h) :
    warpOffset pm ty seed scale 0 w h x y = (0, 0) ∧
    warpResample src w h (warpOffset pm ty seed scale 0 w h) x y = src x y ∧
    warpStage src w h (warpOffset pm ty seed scale 0 w h) alpha x y = src x y := by
  have hoff : warpOffset pm ty seed scale 0 w h x y = (0, 0) := by
    cases ty <;> simp [warpOffset]
  have hres : warpResample src w h (warpOffset pm ty seed scale 0 w h) x y = src x y := by
    simp only [warpResample, hoff, add_zero]
    rw [jsWrapIndex_self x w hx, jsWrapIndex_self y h hy]
    simp only [Int.toNat_natCast]
  refine ⟨hoff, hres, ?_⟩
  simp only [warpStage, hres]
  exact blendOpacity_self alpha (src x y)

/-- Witness for C6 at `w = h = 2`, pixel `(1, 1)`, turbulence type, over a
constant accumulator. -/
theorem warp_zero_strength_witness :
    warpOffset (fun _ => 0) WarpType.TURBULENCE 3 7 0 2 2 1 1 = (0, 0) ∧
    warpResample (fun _ _ => ⟨1, 2, 3, 4⟩) 2 2
      (warpOffset (fun _ => 0) WarpType.TURBULENCE 3 7 0 2 2) 1 1 = (fun _ _ => (⟨1, 2, 3, 4⟩ : RGBA)) 1 1 ∧
    warpStage (fun _ _ => ⟨1, 2, 3, 4⟩) 2 2
      (warpOffset (fun _ => 0) WarpType.TURBULENCE 3 7 0 2 2) 0.5 1 1 = (fun _ _ => (⟨1, 2, 3, 4⟩ : RGBA)) 1 1 :=
  warp_zero_strength (fun _ => 0) WarpType.TURBULENCE 3 7 0.5 (fun _ _ => ⟨1, 2, 3, 4⟩)
    2 2 1 1 (by decide) (by decide) (by decide) (by decide)

/-- C10.  The warp resampling loop writes, at every output pixel, a verbatim
copy of all four channels of one in-bounds pre-warp accumulator pixel; hence
over a constant accumulator the resampled buffer and the blended accumulator
keep that constant value, for any displacement field. -/
theorem warp_pixel_permutation (src : ℕ → ℕ → RGBA) (w h : ℕ)
    (off : ℕ → ℕ → ℝ × ℝ) (alpha : ℝ) (x y : ℕ) (c : RGBA)
    (hw : 0 < w) (hh : 0 < h) (hx : x < w) (hy : y < h) :
    (∃ sx sy : ℕ, sx < w ∧ sy < h ∧ warpResample src w h off x y = src sx sy) ∧
    ((∀ i j : ℕ, i < w → j < h → src i j = c) →
      warpResample src w h off x y = c ∧ warpStage src w h off alpha x y = c) := by
  obtain ⟨h1, h2⟩ := jsWrapIndex_bounds ((x:ℝ) + (off x y).1) w hw
  obtain ⟨h3, h4⟩ := jsWrapIndex_bounds ((y:ℝ) + (off x y).2) h hh
  have hsx : (jsWrapIndex ((x:ℝ) + (off x y).1) w).toNat < w := by omega
  have hsy : (jsWrapIndex ((y:ℝ) + (off x y).2) h).toNat < h := by omega
  have hres : warpResample src w h off x y =
      src (jsWrapIndex ((x:ℝ) + (off x y).1) w).toNat
        (jsWrapIndex ((y:ℝ) + (off x y).2) h).toNat := rfl
  constructor
  · exact ⟨_, _, hsx, hsy, hres⟩
  · intro hconst
    have hc : warpResample src w h off x y = c := by
      rw [hres]
      exact hconst _ _ hsx hsy
    refine ⟨hc, ?_⟩
    simp only [warpStage, hc, hconst x y hx hy]
    exact blendOpacity_self alpha c

/-- Witness for C10 at `w = h = 2`, pixel `(0, 1)`, constant displacement
`(2.5, -3.5)`, constant accumulator value `(9, 9, 9, 255)`. -/
theorem warp_pixel_permutation_witness :
    (∃ sx sy : ℕ, sx < 2 ∧ sy < 2 ∧
      warpResample (fun _ _ => ⟨9, 9, 9, 255⟩) 2 2 (fun _ _ => (2.5, -3.5)) 0 1 =
        (fun _ _ => (⟨9, 9, 9, 255⟩ : RGBA)) sx sy) ∧
    ((∀ i j : ℕ, i < 2 → j < 2 → (fun _ _ => (⟨9, 9, 9, 255⟩ : RGBA)) i j = (⟨9, 9, 9, 255⟩ : RGBA)) →
      warpResample (fun _ _ => ⟨9, 9, 9, 255⟩) 2 2 (fun _ _ => (2.5, -3.5)) 0 1 = (⟨9, 9, 9, 255⟩ : RGBA) ∧
      warpStage (fun _ _ => ⟨9, 9, 9, 255⟩) 2 2 (fun _ _ => (2.5, -3.5)) 0.25 0 1 = (⟨9, 9, 9, 255⟩ : RGBA)) :=
  warp_pixel_permutation (fun _ _ => ⟨9, 9, 9, 255⟩) 2 2 (fun _ _ => (2.5, -3.5)) 0.25 0 1
    (⟨9, 9, 9, 255⟩ : RGBA) (by decide) (by decide) (by decide) (by decide)

/-- C2 counterexample.  The grain generator is `Math.random()`: two
consecutive grain evaluations with identical arguments and identical seeding
return different values, so the claim that every pattern generator is
deterministic in `(seed, args)` is false. -/
theorem grain_not_deterministic :
    (noiseMachine (noiseMachine demoState .grain).1 .grain).2 ≠
      (noiseMachine demoState .grain).2 := by
  simp only [noiseMachine, demoState]
  norm_num

/-- C2 as amended.  Every noise-module call other than `initNoise` and grain
leaves the module state untouched, returns the same value when repeated, and
returns a value that depends only on the permutation table (hence only on the
seed it was built from) and the call's own arguments. -/
theorem noise_eval_deterministic (st : NoiseState) (c : NoiseCall)
    (hc : c.isEval = true) :
    (noiseMachine st c).1 = st ∧
    (noiseMachine (noiseMachine st c).1 c).2 = (noiseMachine st c).2 ∧
    ∀ st' : NoiseState, st'.permTbl = st.permTbl →
      (noiseMachine st' c).2 = (noiseMachine st c).2 := by
  cases c with
  | init s => simp [NoiseCall.isEval] at hc
  | grain => simp [NoiseCall.isEval] at hc
  | simplexT x y w h s =>
      exact ⟨rfl, rfl, fun st' hp => by simp only [noiseMachine, evalCall, hp]⟩
  | rawSimplexT x y w h s =>
      exact ⟨rfl, rfl, fun st' hp => by simp only [noiseMachine, evalCall, hp]⟩
  | cellularT x y w h s j sd =>
      exact ⟨rfl, rfl, fun st' hp => by simp only [noiseMachine, evalCall, hp]⟩
  | dotsT x y w h s bs sv mt sd j =>
      exact ⟨rfl, rfl, fun st' hp => by simp only [noiseMachine, evalCall, hp]⟩
  | stripesT x y w h s =>
      exact ⟨rfl, rfl, fun st' hp => by simp only [noiseMachine, evalCall, hp]⟩
  | maskT x y w h s ty hard rc =>
      exact ⟨rfl, rfl, fun st' hp => by simp only [noiseMachine, evalCall, hp]⟩

/-- Witness for the amended C2 on a concrete stripes call from the demo
state. -/
theorem noise_eval_deterministic_witness :
    (noiseMachine demoState (.stripesT 0 0 8 8 3)).1 = demoState ∧
    (noiseMachine (noiseMachine demoState (.stripesT 0 0 8 8 3)).1 (.stripesT 0 0 8 8 3)).2 =
      (noiseMachine demoState (.stripesT 0 0 8 8 3)).2 ∧
    ∀ st' : NoiseState, st'.permTbl = demoState.permTbl →
      (noiseMachine st' (.stripesT 0 0 8 8 3)).2 =
        (noiseMachine demoState (.stripesT 0 0 8 8 3)).2 :=
  noise_eval_deterministic demoState (.stripesT 0 0 8 8 3) rfl

/-- C8.  Layer tone-mapping: for a procedural (non-warp, non-image) layer the
per-pixel pipeline takes the generator value, applies invert when the flag is
set, tone-maps with `clamp((v - 0.5) * contrast + 0.5 + brightness, 0, 1)`,
and packs the quantized result as a grayscale triple (three equal channels)
with alpha `floor(opacity * 255)`. -/
theorem layer_tonemap_packs (pm : ℕ → ℕ) (entropy : ℝ) (ty : NoiseType)
    (p : LayerParams) (opacity : ℝ) (w h x y : ℕ)
    (hty : ty.isProcedural = true) :
    ∃ q : ℝ, renderPixel pm entropy ty p opacity w h x y =
        ⟨q, q, q, ((⌊opacity * 255⌋ : ℤ) : ℝ)⟩ ∧
      q = ((⌊min 1 (max 0 (((if p.invert then
              1 - layerValue pm entropy ty p w h x y
            else layerValue pm entropy ty p w h x y) - 0.5) * p.contrast + 0.5 +
            p.brightness)) * 255⌋ : ℤ) : ℝ) := by
  refine ⟨((⌊max 0 (min 1 (((if p.invert then
      1 - layerValue pm entropy ty p w h x y
    else layerValue pm entropy ty p w h x y) - 0.5) * p.contrast + 0.5 +
    p.brightness)) * 255⌋ : ℤ) : ℝ), rfl, ?_⟩
  rw [clamp_comm01]

/-- A concrete parameter record (the defaults of src/types.ts with the
optional fields absent), used by witnesses. -/
noncomputable def demoParams : LayerParams :=
  ⟨5, 12345, 1, 0, false, none, none, none, none, none, none, none, none, none⟩

/-- Witness for C8 on a concrete stripes layer. -/
theorem layer_tonemap_packs_witness :
    ∃ q : ℝ, renderPixel (fun _ => 0) 0 NoiseType.STRIPES demoParams 1 2 2 0 0 =
        ⟨q, q, q, ((⌊(1:ℝ) * 255⌋ : ℤ) : ℝ)⟩ ∧
      q = ((⌊min 1 (max 0 (((if demoParams.invert then
              1 - layerValue (fun _ => 0) 0 NoiseType.STRIPES demoParams 2 2 0 0
            else layerValue (fun _ => 0) 0 NoiseType.STRIPES demoParams 2 2 0 0) - 0.5) *
            demoParams.contrast + 0.5 + demoParams.brightness)) * 255⌋ : ℤ) : ℝ) :=
  layer_tonemap_packs (fun _ => 0) 0 NoiseType.STRIPES demoParams 1 2 2 0 0 rfl

/-! ## C4: the cellular field as the claim words it -/

/-- Neighbor-cell distance as claim C4 words it: the feature point sits at
the cell's CENTER plus a jitter offset from a cell-seeded PRNG, and cell
coordinates are wrapped modulo `ceil(scale)`. -/
noncomputable def cellularClaimedDist (px py scale jitter seed : ℝ) (ix iy : ℤ)
    (off : ℤ × ℤ) : ℝ :=
  let nx : ℝ := ((ix + off.1 : ℤ) : ℝ)
  let ny : ℝ := ((iy + off.2 : ℤ) : ℝ)
  let wrappedX := jsWrap nx ((⌈scale⌉ : ℤ) : ℝ)
  let wrappedY := jsWrap ny ((⌈scale⌉ : ℤ) : ℝ)
  let cellSeed := seed + wrappedX * 5743 + wrappedY * 1234
  let pointX := nx + 0.5 + mulberry32 cellSeed 0 * jitter
  let pointY := ny + 0.5 + mulberry32 cellSeed 1 * jitter
  Real.sqrt ((px - pointX) ^ 2 + (py - pointY) ^ 2)

/-- The cellular field exactly as claim C4 states it: `p = (x/w, y/h)*scale`,
`min(1, minDistance)` with `minDistance` the minimum of the nine
neighbor-cell distances of `cellularClaimedDist`. -/
noncomputable def cellularFieldClaimed (x y w h scale jitter seed : ℝ) : ℝ :=
  let px := x / w * scale
  let py := y / h * scale
  let ix : ℤ := ⌊px⌋
  let iy : ℤ := ⌊py⌋
  let d := fun off => cellularClaimedDist px py scale jitter seed ix iy off
  min 1 (min (d (-1,-1)) (min (d (0,-1)) (min (d (1,-1)) (min (d (-1,0))
    (min (d (0,0)) (min (d (1,0)) (min (d (-1,1)) (min (d (0,1)) (d (1,1))))))))))

/-- The cellular field as amended: identical except that the feature point
sits at the cell corner `(nx, ny)` plus the jitter offsets, and cell
coordinates are wrapped modulo `scale` itself — i.e. the distance is the
source's `cellularDist`. -/
noncomputable def cellularFieldAmended (x y w h scale jitter seed : ℝ) : ℝ :=
  let px := x / w * scale
  let py := y / h * scale
  let ix : ℤ := ⌊px⌋
  let iy : ℤ := ⌊py⌋
  let d := fun off => cellularDist px py scale jitter seed ix iy off
  min 1 (min (d (-1,-1)) (min (d (0,-1)) (min (d (1,-1)) (min (d (-1,0))
    (min (d (0,0)) (min (d (1,0)) (min (d (-1,1)) (min (d (0,1)) (d (1,1))))))))))

theorem sqrt_two_not_lt_one : ¬ (Real.sqrt 2 < 1) := by
  rw [not_lt, show (1:ℝ) = Real.sqrt 1 from Real.sqrt_one.symm]
  exact Real.sqrt_le_sqrt (by norm_num)

/-- C4 counterexample.  At pixel (0,0) with resolution 1, scale 1, jitter 0
and seed 0 the source places the feature points on the cell corners, so the
pixel coincides with a feature point and the field is 0; the claim's wording
(points at cell centers) yields `sqrt (1/2)` instead. -/
theorem cellular_claimed_mismatch :
    cellularFieldClaimed 0 0 1 1 1 0 0 ≠ generateCellularTiled 0 0 1 1 1 0 0 := by
  have hd : ∀ off : ℤ × ℤ, cellularDist 0 0 1 0 0 0 0 off =
      Real.sqrt (((off.1 : ℝ)) ^ 2 + ((off.2 : ℝ)) ^ 2) := by
    intro off
    simp only [cellularDist, mul_zero, add_zero]
    congr 1
    push_cast
    ring
  have hd2 : ∀ off : ℤ × ℤ, cellularClaimedDist 0 0 1 0 0 0 0 off =
      Real.sqrt (((off.1 : ℝ) + 0.5) ^ 2 + ((off.2 : ℝ) + 0.5) ^ 2) := by
    intro off
    simp only [cellularClaimedDist, mul_zero, add_zero]
    congr 1
    push_cast
    ring
  have h20 : ¬ (Real.sqrt 2 < 0) := not_lt.mpr (Real.sqrt_nonneg 2)
  have hcode : generateCellularTiled 0 0 1 1 1 0 0 = 0 := by
    norm_num [generateCellularTiled, cellOffsets, List.foldl_cons, List.foldl_nil,
      cellularStep, hd, sqrt_two_not_lt_one, h20, Real.sqrt_one, Real.sqrt_zero]
  have hs2 : (0:ℝ) < Real.sqrt 2 := Real.sqrt_pos.mpr (by norm_num)
  have hclaim : cellularFieldClaimed 0 0 1 1 1 0 0 = (Real.sqrt 2)⁻¹ := by
    norm_num [cellularFieldClaimed, hd2]
    have c1 : Real.sqrt 5 / Real.sqrt 2 ⊓ Real.sqrt 9 / Real.sqrt 2 =
        Real.sqrt 5 / Real.sqrt 2 :=
      min_eq_left ((div_le_div_iff_of_pos_right hs2).mpr (Real.sqrt_le_sqrt (by norm_num)))
    have c2 : (Real.sqrt 2)⁻¹ ⊓ (Real.sqrt 5 / Real.sqrt 2) = (Real.sqrt 2)⁻¹ := by
      refine min_eq_left ?_
      rw [inv_eq_one_div]
      refine (div_le_div_iff_of_pos_right hs2).mpr ?_
      rw [show (1:ℝ) = Real.sqrt 1 from Real.sqrt_one.symm]
      exact Real.sqrt_le_sqrt (by norm_num)
    have c3 : (1:ℝ) ⊓ (Real.sqrt 2)⁻¹ = (Real.sqrt 2)⁻¹ := by
      refine min_eq_right ?_
      rw [inv_eq_one_div]
      refine div_le_one_of_le₀ ?_ hs2.le
      rw [show (1:ℝ) = Real.sqrt 1 from Real.sqrt_one.symm]
      exact Real.sqrt_le_sqrt (by norm_num)
    rw [c1, c2, c3]
  rw [hclaim, hcode]
  exact inv_ne_zero hs2.ne'

/-- C4 as amended.  For every pixel, resolution, scale, jitter and seed the
source's cellular field equals the amended description: minimum distance over
the 3x3 neighborhood to feature points at each cell's corner plus the
cell-seeded jitter offset, with cell coordinates wrapped modulo `scale`
itself, clamped by `min 1`. -/
theorem cellular_matches_amended (x y w h scale jitter seed : ℝ) :
    generateCellularTiled x y w h scale jitter seed =
      cellularFieldAmended x y w h scale jitter seed := by
  have hmin : ∀ d m : ℝ, (if d < m then d else m) = min m d := by
    intro d m
    rcases lt_or_le d m with hlt | hle
    · rw [if_pos hlt, min_eq_right hlt.le]
    · rw [if_neg (not_lt.mpr hle), min_eq_left hle]
  simp only [generateCellularTiled, cellularFieldAmended, cellOffsets, List.foldl_cons,
    List.foldl_nil, cellularStep, hmin]
  simp only [min_assoc]
  rw [← min_assoc 1 1, min_self]

/-! ## C1: tiling lemmas for the five generators -/

theorem simplexTiled_col (pm : ℕ → ℕ) (w : ℕ) (hw : 0 < w) (y scale : ℝ) :
    generateSimplexTiled pm (w:ℝ) y (w:ℝ) (w:ℝ) scale =
      generateSimplexTiled pm 0 y (w:ℝ) (w:ℝ) scale := by
  have hw0 : ((w:ℕ):ℝ) ≠ 0 := by
    have : (0:ℝ) < (w:ℝ) := by exact_mod_cast hw
    linarith
  simp only [generateSimplexTiled]
  rw [div_self hw0, zero_div, one_mul, zero_mul, show π * 2 = 2 * π by ring,
    Real.cos_two_pi, Real.sin_two_pi, Real.cos_zero, Real.sin_zero]

theorem simplexTiled_row (pm : ℕ → ℕ) (w : ℕ) (hw : 0 < w) (x scale : ℝ) :
    generateSimplexTiled pm x (w:ℝ) (w:ℝ) (w:ℝ) scale =
      generateSimplexTiled pm x 0 (w:ℝ) (w:ℝ) scale := by
  have hw0 : ((w:ℕ):ℝ) ≠ 0 := by
    have : (0:ℝ) < (w:ℝ) := by exact_mod_cast hw
    linarith
  simp only [generateSimplexTiled]
  rw [div_self hw0, zero_div, one_mul, zero_mul, show π * 2 = 2 * π by ring,
    Real.cos_two_pi, Real.sin_two_pi, Real.cos_zero, Real.sin_zero]

theorem stripesTiled_col (w k : ℕ) (hw : 0 < w) (y : ℝ) :
    generateStripesTiled (w:ℝ) y (w:ℝ) (w:ℝ) (k:ℝ) =
      generateStripesTiled 0 y (w:ℝ) (w:ℝ) (k:ℝ) := by
  have hw0 : ((w:ℕ):ℝ) ≠ 0 := by
    have : (0:ℝ) < (w:ℝ) := by exact_mod_cast hw
    linarith
  simp only [generateStripesTiled]
  rw [div_self hw0, zero_div,
    show (1:ℝ) * π * 2 * (k:ℝ) = ((2 * k : ℤ):ℝ) * π by push_cast; ring,
    show (0:ℝ) * π * 2 * (k:ℝ) = 0 by ring, Real.sin_int_mul_pi, Real.sin_zero]

theorem stripesTiled_row (w k : ℕ) (x : ℝ) :
    generateStripesTiled x (w:ℝ) (w:ℝ) (w:ℝ) (k:ℝ) =
      generateStripesTiled x 0 (w:ℝ) (w:ℝ) (k:ℝ) := rfl

theorem maskTiled_col (w k : ℕ) (hw : 0 < w) (y : ℝ) (ty : MaskType)
    (hardness ringCount : ℝ) :
    generateMaskTiled (w:ℝ) y (w:ℝ) (w:ℝ) (k:ℝ) ty hardness ringCount =
      generateMaskTiled 0 y (w:ℝ) (w:ℝ) (k:ℝ) ty hardness ringCount := by
  have hw0 : ((w:ℕ):ℝ) ≠ 0 := by
    have : (0:ℝ) < (w:ℝ) := by exact_mod_cast hw
    linarith
  simp only [generateMaskTiled]
  have hu : jsWrap01 (((w:ℝ) / (w:ℝ) - 0.5) * (k:ℝ) + 0.5) =
      jsWrap01 ((0 / (w:ℝ) - 0.5) * (k:ℝ) + 0.5) := by
    rw [jsWrap01_eq_fract, jsWrap01_eq_fract, div_self hw0, zero_div,
      show ((1:ℝ) - 0.5) * (k:ℝ) + 0.5 = ((0 - 0.5) * (k:ℝ) + 0.5) + ((k:ℤ):ℝ) by
        push_cast; ring]
    exact Int.fract_add_int _ _
  rw [hu]

theorem maskTiled_row (w k : ℕ) (hw : 0 < w) (x : ℝ) (ty : MaskType)
    (hardness ringCount : ℝ) :
    generateMaskTiled x (w:ℝ) (w:ℝ) (w:ℝ) (k:ℝ) ty hardness ringCount =
      generateMaskTiled x 0 (w:ℝ) (w:ℝ) (k:ℝ) ty hardness ringCount := by
  have hw0 : ((w:ℕ):ℝ) ≠ 0 := by
    have : (0:ℝ) < (w:ℝ) := by exact_mod_cast hw
    linarith
  simp only [generateMaskTiled]
  have hv : jsWrap01 (((w:ℝ) / (w:ℝ) - 0.5) * (k:ℝ) + 0.5) =
      jsWrap01 ((0 / (w:ℝ) - 0.5) * (k:ℝ) + 0.5) := by
    rw [jsWrap01_eq_fract, jsWrap01_eq_fract, div_self hw0, zero_div,
      show ((1:ℝ) - 0.5) * (k:ℝ) + 0.5 = ((0 - 0.5) * (k:ℝ) + 0.5) + ((k:ℤ):ℝ) by
        push_cast; ring]
    exact Int.fract_add_int _ _
  rw [hv]

theorem jsWrap_shift_cell (k : ℕ) (hk : 0 < k) (o : ℤ) :
    jsWrap ((((k:ℕ):ℤ) + o : ℤ):ℝ) ((k:ℕ):ℝ) = jsWrap (((0 + o : ℤ)):ℝ) ((k:ℕ):ℝ) := by
  rw [show ((k:ℕ):ℤ) + o = (0 + o) + ((k:ℕ):ℤ) by ring]
  exact jsWrap_add_nat (0 + o) k hk

theorem cellularTiled_col (w k : ℕ) (hw : 0 < w) (hk : 0 < k) (y jitter seed : ℝ) :
    generateCellularTiled (w:ℝ) y (w:ℝ) (w:ℝ) (k:ℝ) jitter seed =
      generateCellularTiled 0 y (w:ℝ) (w:ℝ) (k:ℝ) jitter seed := by
  have hw0 : ((w:ℕ):ℝ) ≠ 0 := by
    have : (0:ℝ) < (w:ℝ) := by exact_mod_cast hw
    linarith
  simp only [generateCellularTiled]
  rw [div_self hw0, zero_div, one_mul, zero_mul, Int.floor_natCast, Int.floor_zero]
  congr 1
  apply List.foldl_ext
  intro m off hoff
  have hd : ∀ (py : ℝ) (iy : ℤ),
      cellularDist ((k:ℕ):ℝ) py ((k:ℕ):ℝ) jitter seed ((k:ℕ):ℤ) iy off =
        cellularDist 0 py ((k:ℕ):ℝ) jitter seed 0 iy off := by
    intro py iy
    simp only [cellularDist, jsWrap_shift_cell k hk]
    have harg : ∀ m1 : ℝ,
        (((k:ℕ):ℝ) - (((((k:ℕ):ℤ) + off.1 : ℤ):ℝ) + m1)) =
          ((0:ℝ) - ((((0 + off.1 : ℤ):ℤ):ℝ) + m1)) := by
      intro m1
      push_cast
      ring
    rw [harg]
  simp only [cellularStep, hd]

theorem cellularTiled_row (w k : ℕ) (hw : 0 < w) (hk : 0 < k) (x jitter seed : ℝ) :
    generateCellularTiled x (w:ℝ) (w:ℝ) (w:ℝ) (k:ℝ) jitter seed =
      generateCellularTiled x 0 (w:ℝ) (w:ℝ) (k:ℝ) jitter seed := by
  have hw0 : ((w:ℕ):ℝ) ≠ 0 := by
    have : (0:ℝ) < (w:ℝ) := by exact_mod_cast hw
    linarith
  simp only [generateCellularTiled]
  rw [div_self hw0, zero_div, one_mul, zero_mul, Int.floor_natCast, Int.floor_zero]
  congr 1
  apply List.foldl_ext
  intro m off hoff
  have hd : ∀ (px : ℝ) (ix : ℤ),
      cellularDist px ((k:ℕ):ℝ) ((k:ℕ):ℝ) jitter seed ix ((k:ℕ):ℤ) off =
        cellularDist px 0 ((k:ℕ):ℝ) jitter seed ix 0 off := by
    intro px ix
    simp only [cellularDist, jsWrap_shift_cell k hk]
    have harg : ∀ m1 : ℝ,
        (((k:ℕ):ℝ) - (((((k:ℕ):ℤ) + off.2 : ℤ):ℝ) + m1)) =
          ((0:ℝ) - ((((0 + off.2 : ℤ):ℤ):ℝ) + m1)) := by
      intro m1
      push_cast
      ring
    rw [harg]
  simp only [cellularStep, hd]

theorem dotsGridScale_nat (k : ℕ) (hk : 0 < k) :
    ((⌈max (1:ℝ) ((k:ℕ):ℝ)⌉ : ℤ) : ℝ) = ((k:ℕ):ℝ) := by
  have h1k : (1:ℝ) ≤ ((k:ℕ):ℝ) := by exact_mod_cast hk
  rw [max_eq_right h1k, Int.ceil_natCast]
  push_cast
  ring

theorem dotsTiled_col (w k : ℕ) (hw : 0 < w) (hk : 0 < k)
    (y baseSize sizeVar maskThreshold seed jitter : ℝ) :
    generateDotsTiled (w:ℝ) y (w:ℝ) (w:ℝ) (k:ℝ) baseSize sizeVar maskThreshold seed jitter =
      generateDotsTiled 0 y (w:ℝ) (w:ℝ) (k:ℝ) baseSize sizeVar maskThreshold seed jitter := by
  have hw0 : ((w:ℕ):ℝ) ≠ 0 := by
    have : (0:ℝ) < (w:ℝ) := by exact_mod_cast hw
    linarith
  simp only [generateDotsTiled, dotsGridScale_nat k hk]
  rw [div_self hw0, zero_div, one_mul, zero_mul, Int.floor_natCast, Int.floor_zero]
  apply List.foldl_ext
  intro v off hoff
  simp only [dotsStep, jsWrap_shift_cell k hk]
  have harg : ∀ m1 : ℝ,
      (((k:ℕ):ℝ) - (((((k:ℕ):ℤ) + off.1 : ℤ):ℝ) + 0.5 + m1)) =
        ((0:ℝ) - ((((0 + off.1 : ℤ):ℤ):ℝ) + 0.5 + m1)) := by
    intro m1
    push_cast
    ring
  rw [harg]

theorem dotsTiled_row (w k : ℕ) (hw : 0 < w) (hk : 0 < k)
    (x baseSize sizeVar maskThreshold seed jitter : ℝ) :
    generateDotsTiled x (w:ℝ) (w:ℝ) (w:ℝ) (k:ℝ) baseSize sizeVar maskThreshold seed jitter =
      generateDotsTiled x 0 (w:ℝ) (w:ℝ) (k:ℝ) baseSize sizeVar maskThreshold seed jitter := by
  have hw0 : ((w:ℕ):ℝ) ≠ 0 := by
    have : (0:ℝ) < (w:ℝ) := by exact_mod_cast hw
    linarith
  simp only [generateDotsTiled, dotsGridScale_nat k hk]
  rw [div_self hw0, zero_div, one_mul, zero_mul, Int.floor_natCast, Int.floor_zero]
  apply List.foldl_ext
  intro v off hoff
  simp only [dotsStep, jsWrap_shift_cell k hk]
  have harg : ∀ m1 : ℝ,
      (((k:ℕ):ℝ) - (((((k:ℕ):ℤ) + off.2 : ℤ):ℝ) + 0.5 + m1)) =
        ((0:ℝ) - ((((0 + off.2 : ℤ):ℤ):ℝ) + 0.5 + m1)) := by
    intro m1
    push_cast
    ring
  rw [harg]

/-- C1 counterexample.  The stripe generator does not tile for every scale:
at resolution 1 and scale 1/4, the wrapped column `x = w` evaluates
`sin(pi/2) = 1 > 0` and yields 1, while column `x = 0` evaluates
`sin 0 = 0` and yields 0. -/
theorem stripes_not_tiled_at_quarter_scale :
    generateStripesTiled 1 0 1 1 (1/4) ≠ generateStripesTiled 0 0 1 1 (1/4) := by
  have h1 : (1:ℝ) / 1 * π * 2 * (1/4) = π / 2 := by ring
  have h0 : (0:ℝ) / 1 * π * 2 * (1/4) = 0 := by ring
  simp only [generateStripesTiled, h1, h0, Real.sin_pi_div_two, Real.sin_zero]
  rw [if_pos one_pos, if_neg (lt_irrefl 0)]
  exact one_ne_zero

/-- C1 as amended.  For every square resolution `w = h > 0`, every positive
integer scale `k`, and every choice of the kind parameters, each of the five
procedural generators is toroidal: its value at the wrapped column `x = w`
equals its value at column `x = 0` (at any row `y`), and its value at the
wrapped row `y = h` equals its value at row `y = 0` (at any column `x`) —
exactly, with no floating-point tolerance needed in the real-number model.
(Simplex and dots tile at every real scale; the integer restriction is what
the stripes counterexample forces, and cellular and mask need it too.) -/
theorem generators_tile_integer_scale (w k : ℕ) (hw : 0 < w) (hk : 0 < k)
    (x y : ℝ) (pm : ℕ → ℕ) (cjitter cseed : ℝ)
    (baseSize sizeVar maskThreshold dseed djitter : ℝ)
    (mty : MaskType) (hardness ringCount : ℝ) :
    (generateSimplexTiled pm (w:ℝ) y (w:ℝ) (w:ℝ) (k:ℝ) =
      generateSimplexTiled pm 0 y (w:ℝ) (w:ℝ) (k:ℝ)) ∧
    (generateSimplexTiled pm x (w:ℝ) (w:ℝ) (w:ℝ) (k:ℝ) =
      generateSimplexTiled pm x 0 (w:ℝ) (w:ℝ) (k:ℝ)) ∧
    (generateCellularTiled (w:ℝ) y (w:ℝ) (w:ℝ) (k:ℝ) cjitter cseed =
      generateCellularTiled 0 y (w:ℝ) (w:ℝ) (k:ℝ) cjitter cseed) ∧
    (generateCellularTiled x (w:ℝ) (w:ℝ) (w:ℝ) (k:ℝ) cjitter cseed =
      generateCellularTiled x 0 (w:ℝ) (w:ℝ) (k:ℝ) cjitter cseed) ∧
    (generateDotsTiled (w:ℝ) y (w:ℝ) (w:ℝ) (k:ℝ) baseSize sizeVar maskThreshold dseed djitter =
      generateDotsTiled 0 y (w:ℝ) (w:ℝ) (k:ℝ) baseSize sizeVar maskThreshold dseed djitter) ∧
    (generateDotsTiled x (w:ℝ) (w:ℝ) (w:ℝ) (k:ℝ) baseSize sizeVar maskThreshold dseed djitter =
      generateDotsTiled x 0 (w:ℝ) (w:ℝ) (k:ℝ) baseSize sizeVar maskThreshold dseed djitter) ∧
    (generateStripesTiled (w:ℝ) y (w:ℝ) (w:ℝ) (k:ℝ) =
      generateStripesTiled 0 y (w:ℝ) (w:ℝ) (k:ℝ)) ∧
    (generateStripesTiled x (w:ℝ) (w:ℝ) (w:ℝ) (k:ℝ) =
      generateStripesTiled x 0 (w:ℝ) (w:ℝ) (k:ℝ)) ∧
    (generateMaskTiled (w:ℝ) y (w:ℝ) (w:ℝ) (k:ℝ) mty hardness ringCount =
      generateMaskTiled 0 y (w:ℝ) (w:ℝ) (k:ℝ) mty hardness ringCount) ∧
    (generateMaskTiled x (w:ℝ) (w:ℝ) (w:ℝ) (k:ℝ) mty hardness ringCount =
      generateMaskTiled x 0 (w:ℝ) (w:ℝ) (k:ℝ) mty hardness ringCount) :=
  ⟨simplexTiled_col pm w hw y (k:ℝ), simplexTiled_row pm w hw x (k:ℝ),
   cellularTiled_col w k hw hk y cjitter cseed, cellularTiled_row w k hw hk x cjitter cseed,
   dotsTiled_col w k hw hk y baseSize sizeVar maskThreshold dseed djitter,
   dotsTiled_row w k hw hk x baseSize sizeVar maskThreshold dseed djitter,
   stripesTiled_col w k hw y, stripesTiled_row w k x,
   maskTiled_col w k hw y mty hardness ringCount,
   maskTiled_row w k hw x mty hardness ringCount⟩

/-- Witness for the amended C1 at resolution 8, scale 3, pixel column/row 2,
zero table and a concrete parameter set. -/
theorem generators_tile_integer_scale_witness :
    (generateSimplexTiled (fun _ => 0) ((8:ℕ):ℝ) 2 ((8:ℕ):ℝ) ((8:ℕ):ℝ) ((3:ℕ):ℝ) =
      generateSimplexTiled (fun _ => 0) 0 2 ((8:ℕ):ℝ) ((8:ℕ):ℝ) ((3:ℕ):ℝ)) ∧
    (generateSimplexTiled (fun _ => 0) 2 ((8:ℕ):ℝ) ((8:ℕ):ℝ) ((8:ℕ):ℝ) ((3:ℕ):ℝ) =
      generateSimplexTiled (fun _ => 0) 2 0 ((8:ℕ):ℝ) ((8:ℕ):ℝ) ((3:ℕ):ℝ)) ∧
    (generateCellularTiled ((8:ℕ):ℝ) 2 ((8:ℕ):ℝ) ((8:ℕ):ℝ) ((3:ℕ):ℝ) 1 12345 =
      generateCellularTiled 0 2 ((8:ℕ):ℝ) ((8:ℕ):ℝ) ((3:ℕ):ℝ) 1 12345) ∧
    (generateCellularTiled 2 ((8:ℕ):ℝ) ((8:ℕ):ℝ) ((8:ℕ):ℝ) ((3:ℕ):ℝ) 1 12345 =
      generateCellularTiled 2 0 ((8:ℕ):ℝ) ((8:ℕ):ℝ) ((3:ℕ):ℝ) 1 12345) ∧
    (generateDotsTiled ((8:ℕ):ℝ) 2 ((8:ℕ):ℝ) ((8:ℕ):ℝ) ((3:ℕ):ℝ) 0.8 0 0 12345 1 =
      generateDotsTiled 0 2 ((8:ℕ):ℝ) ((8:ℕ):ℝ) ((3:ℕ):ℝ) 0.8 0 0 12345 1) ∧
    (generateDotsTiled 2 ((8:ℕ):ℝ) ((8:ℕ):ℝ) ((8:ℕ):ℝ) ((3:ℕ):ℝ) 0.8 0 0 12345 1 =
      generateDotsTiled 2 0 ((8:ℕ):ℝ) ((8:ℕ):ℝ) ((3:ℕ):ℝ) 0.8 0 0 12345 1) ∧
    (generateStripesTiled ((8:ℕ):ℝ) 2 ((8:ℕ):ℝ) ((8:ℕ):ℝ) ((3:ℕ):ℝ) =
      generateStripesTiled 0 2 ((8:ℕ):ℝ) ((8:ℕ):ℝ) ((3:ℕ):ℝ)) ∧
    (generateStripesTiled 2 ((8:ℕ):ℝ) ((8:ℕ):ℝ) ((8:ℕ):ℝ) ((3:ℕ):ℝ) =
      generateStripesTiled 2 0 ((8:ℕ):ℝ) ((8:ℕ):ℝ) ((3:ℕ):ℝ)) ∧
    (generateMaskTiled ((8:ℕ):ℝ) 2 ((8:ℕ):ℝ) ((8:ℕ):ℝ) ((3:ℕ):ℝ) MaskType.GLOW_CIRCLE 0.5 5 =
      generateMaskTiled 0 2 ((8:ℕ):ℝ) ((8:ℕ):ℝ) ((3:ℕ):ℝ) MaskType.GLOW_CIRCLE 0.5 5) ∧
    (generateMaskTiled 2 ((8:ℕ):ℝ) ((8:ℕ):ℝ) ((8:ℕ):ℝ) ((3:ℕ):ℝ) MaskType.GLOW_CIRCLE 0.5 5 =
      generateMaskTiled 2 0 ((8:ℕ):ℝ) ((8:ℕ):ℝ) ((3:ℕ):ℝ) MaskType.GLOW_CIRCLE 0.5 5) :=
  generators_tile_integer_scale 8 3 (by decide) (by decide) 2 2 (fun _ => 0) 1 12345
    0.8 0 0 12345 1 MaskType.GLOW_CIRCLE 0.5 5

/-! ## Supporting range facts for the non-simplex generators

Claim C3 also covers the simplex-based outputs; those hinge on a tight bound
for the 27-scaled five-corner sum which is left open, but the ranges of the
other four generators are established here. -/

theorem stripes_range (x y w h scale : ℝ) :
    0 ≤ generateStripesTiled x y w h scale ∧ generateStripesTiled x y w h scale ≤ 1 := by
  unfold generateStripesTiled
  rcases lt_or_le 0 (Real.sin (x / w * π * 2 * scale)) with hpos | hneg
  · rw [if_pos hpos]
    norm_num
  · rw [if_neg (not_lt.mpr hneg)]
    norm_num

theorem maskFromUV_range (u v : ℝ) (ty : MaskType) (hardness ringCount : ℝ) :
    0 ≤ maskFromUV u v ty hardness ringCount ∧ maskFromUV u v ty hardness ringCount ≤ 1 := by
  cases ty with
  | RINGS =>
      simp only [maskFromUV]
      constructor
      · nlinarith [Real.neg_one_le_sin (Real.sqrt ((u - 0.5) * (u - 0.5) +
          (v - 0.5) * (v - 0.5)) * ringCount * π * 4)]
      · nlinarith [Real.sin_le_one (Real.sqrt ((u - 0.5) * (u - 0.5) +
          (v - 0.5) * (v - 0.5)) * ringCount * π * 4)]
  | GLOW_CIRCLE =>
      exact ⟨le_max_left 0 _, max_le zero_le_one (min_le_left 1 _)⟩
  | GLOW_SQUARE =>
      exact ⟨le_max_left 0 _, max_le zero_le_one (min_le_left 1 _)⟩
  | STAR_4 =>
      exact ⟨le_max_left 0 _, max_le zero_le_one (min_le_left 1 _)⟩
  | STAR_5 =>
      exact ⟨le_max_left 0 _, max_le zero_le_one (min_le_left 1 _)⟩

theorem mask_range (x y w h scale : ℝ) (ty : MaskType) (hardness ringCount : ℝ) :
    0 ≤ generateMaskTiled x y w h scale ty hardness ringCount ∧
      generateMaskTiled x y w h scale ty hardness ringCount ≤ 1 := by
  unfold generateMaskTiled
  exact maskFromUV_range _ _ ty hardness ringCount

theorem cellular_foldl_nonneg (px py scale jitter seed : ℝ) (ix iy : ℤ) :
    ∀ (l : List (ℤ × ℤ)) (m : ℝ), 0 ≤ m →
      0 ≤ l.foldl (cellularStep px py scale jitter seed ix iy) m := by
  intro l
  induction l with
  | nil => intro m hm; exact hm
  | cons hd tl ih =>
      intro m hm
      apply ih
      simp only [cellularStep]
      rcases lt_or_le (cellularDist px py scale jitter seed ix iy hd) m with hlt | hle
      · rw [if_pos hlt]
        exact Real.sqrt_nonneg _
      · rw [if_neg (not_lt.mpr hle)]
        exact hm

theorem cellular_range (x y w h scale jitter seed : ℝ) :
    0 ≤ generateCellularTiled x y w h scale jitter seed ∧
      generateCellularTiled x y w h scale jitter seed ≤ 1 := by
  unfold generateCellularTiled
  refine ⟨le_min zero_le_one ?_, min_le_left 1 _⟩
  exact cellular_foldl_nonneg _ _ _ _ _ _ _ cellOffsets 1 zero_le_one

theorem dotsStep_range (px py g bs sv mt seed j : ℝ) (ix iy : ℤ) (v : ℝ)
    (off : ℤ × ℤ) (h0 : 0 ≤ v) (h1 : v ≤ 1) :
    0 ≤ dotsStep px py g bs sv mt seed j ix iy v off ∧
      dotsStep px py g bs sv mt seed j ix iy v off ≤ 1 := by
  simp only [dotsStep]
  rcases lt_or_le (mulberry32 _ 0) mt with hmask | hmask
  · rw [if_pos hmask]
    exact ⟨h0, h1⟩
  · rw [if_neg (not_lt.mpr hmask)]
    rcases lt_or_le (Real.sqrt _) (bs * 0.5 * (1 - mulberry32 _ 3 * sv)) with hdist | hdist
    · rw [if_pos hdist]
      constructor
      · exact le_trans h0 (le_max_left v _)
      · refine max_le h1 ?_
        have hmin : ∀ E : ℝ, 1 - min 1 (max 0 E) ≤ 1 := by
          intro E
          have hE : (0:ℝ) ≤ min 1 (max 0 E) := le_min zero_le_one (le_max_left 0 E)
          linarith
        exact hmin _
    · rw [if_neg (not_lt.mpr hdist)]
      exact ⟨h0, h1⟩

theorem dots_foldl_range (px py g bs sv mt seed j : ℝ) (ix iy : ℤ) :
    ∀ (l : List (ℤ × ℤ)) (v : ℝ), 0 ≤ v → v ≤ 1 →
      0 ≤ l.foldl (dotsStep px py g bs sv mt seed j ix iy) v ∧
        l.foldl (dotsStep px py g bs sv mt seed j ix iy) v ≤ 1 := by
  intro l
  induction l with
  | nil => intro v h0 h1; exact ⟨h0, h1⟩
  | cons hd tl ih =>
      intro v h0 h1
      obtain ⟨s0, s1⟩ := dotsStep_range px py g bs sv mt seed j ix iy v hd h0 h1
      exact ih _ s0 s1

theorem dots_range (x y w h scale baseSize sizeVar maskThreshold seed jitter : ℝ) :
    0 ≤ generateDotsTiled x y w h scale baseSize sizeVar maskThreshold seed jitter ∧
      generateDotsTiled x y w h scale baseSize sizeVar maskThreshold seed jitter ≤ 1 := by
  unfold generateDotsTiled
  exact dots_foldl_range _ _ _ _ _ _ _ _ _ _ cellOffsets 0 le_rfl zero_le_one
